import Mathlib

/-!
Shallow embedding of the orchestration core of an image-enrichment
application: the bounded-concurrency job scheduler and its drain loop, the
per-job state-machine processor, the retry-with-backoff wrapper around
remote AI calls, the batch orchestrator, and the deterministic placement
heuristic.  Pure functions are translated directly; asynchronous remote
calls are passed in as oracle functions returning `Except` (success or the
thrown `Error`), and observable side effects (status updates, remote-call
issue points, awaited delays, progress callbacks) are collected in event
traces.  Machine numbers are `Nat`/`Int` (JavaScript numbers never reach
overflow territory in the embedded code paths).
-/

/-- Auxiliary scan for `strIncludes`: does `pat` occur contiguously in `s`
(as character lists)? -/
def strIncludesAux (pat : List Char) : List Char → Bool
  | [] => pat.isEmpty
  | c :: rest => pat.isPrefixOf (c :: rest) || strIncludesAux pat rest

/-- Substring test mirroring JavaScript `String.prototype.includes`:
`pat` occurs contiguously inside `s`. -/
def strIncludes (s pat : String) : Bool :=
  strIncludesAux pat.toList s.toList

/-- JavaScript `String.prototype.trim`: strip leading and trailing
whitespace (over the character list, so that it evaluates inside the
kernel; the sources only trim ASCII whitespace in practice). -/
def jsTrim (s : String) : String :=
  ⟨((s.toList.dropWhile Char.isWhitespace).reverse.dropWhile Char.isWhitespace).reverse⟩

/-- A JavaScript `Error` value as the embedded code observes it: its
`message`, plus the `status` field carried by the service layer's
`FetchError` subclass (`none` for a plain `Error`). -/
structure JsError where
  message : String
  fetchStatus : Option Nat := none
deriving DecidableEq, Repr

/-- The retry layer's classification of a failure as a rate-limit error,
translated from `retryableAIOperation`: a `FetchError` whose status is 429,
or an error message containing `"429"` or `"RESOURCE_EXHAUSTED"`. -/
def isRateLimitError (e : JsError) : Bool :=
  (e.fetchStatus == some 429) || strIncludes e.message "429" ||
    strIncludes e.message "RESOURCE_EXHAUSTED"

/-- Outcome of the underlying `fetch` call inside `fetchWithTimeout`: the
request completes with a response, is aborted by the timeout timer
(`AbortError`), or fails with some other error. -/
inductive FetchOutcome (ρ : Type) where
  | completed (response : ρ)
  | aborted
  | failed (e : JsError)

/-- Shallow embedding of `fetchWithTimeout`: a completed request passes
through, an abort by the timeout timer is converted into the timeout
`Error`, and any other failure is rethrown unchanged.  `timeout / 1000`
uses natural-number division; every timeout value the source passes
(20000, 30000, 60000, 90000, 120000) is a multiple of 1000, where this
agrees with JavaScript's division. -/
def fetchWithTimeout {ρ} (outcome : FetchOutcome ρ) (timeout : Nat) : Except JsError ρ :=
  match outcome with
  | .completed r => .ok r
  | .aborted =>
      .error ⟨"Request timed out after " ++ toString (timeout / 1000) ++ " seconds.", none⟩
  | .failed e => .error e

/-- Observable events of one `retryableAIOperation` run: the `i`-th
invocation of the wrapped operation (0-indexed), and an awaited backoff
delay in milliseconds. -/
inductive RetryEvent where
  | invoke (i : Nat)
  | wait (ms : Nat)
deriving DecidableEq, Repr

/-- The wrapping error thrown when `retryableAIOperation` exhausts all its
attempts (`lastError = none` corresponds to the JavaScript `undefined`
when the loop never ran, i.e. `retries = 0`). -/
def retryExhaustedError (retries : Nat) (lastError : Option JsError) : JsError :=
  ⟨"AI request failed after " ++ toString retries ++ " attempts. Last error: " ++
    (match lastError with | some e => e.message | none => "undefined"), none⟩

/-- The loop of `retryableAIOperation`, translated from the source: attempt
`i` invokes the operation; on success the result is returned; on a failure
classified by `isRateLimitError` the loop awaits `initialDelay * 2 ^ i` and
moves to attempt `i + 1`; any other failure is rethrown immediately.  When
all attempts are spent (`i` reaches `retries`) the wrapping exhaustion
error is thrown.  The operation is an oracle `apiCall` mapping the attempt
index to that invocation's outcome; the loop counter `for (i = 0; i <
retries; i++)` is carried as the attempt index `i` together with the
number `remaining = retries - i` of attempts left, on which the recursion
is structural.  The returned trace records invocations and awaited delays
in order. -/
def retryableAIOperationGo {α} (apiCall : Nat → Except JsError α)
    (retries initialDelay : Nat) :
    Nat → Nat → Option JsError → List RetryEvent × Except JsError α
  | 0, _, lastError => ([], .error (retryExhaustedError retries lastError))
  | remaining + 1, i, _ =>
    match apiCall i with
    | .ok v => ([.invoke i], .ok v)
    | .error e =>
      if isRateLimitError e then
        let rest := retryableAIOperationGo apiCall retries initialDelay remaining (i + 1) (some e)
        (.invoke i :: .wait (initialDelay * 2 ^ i) :: rest.1, rest.2)
      else ([.invoke i], .error e)

/-- Shallow embedding of `retryableAIOperation(apiCall, retries, initialDelay)`:
runs the attempt loop from attempt 0, with all `retries` attempts left and
no previous error recorded. -/
def retryableAIOperation {α} (apiCall : Nat → Except JsError α)
    (retries initialDelay : Nat) : List RetryEvent × Except JsError α :=
  retryableAIOperationGo apiCall retries initialDelay retries 0 none

/-- The attempt indices invoked during a retry trace, in order. -/
def retryInvokes (tr : List RetryEvent) : List Nat :=
  tr.filterMap fun e => match e with | .invoke i => some i | _ => none

/-- The backoff delays awaited during a retry trace, in order. -/
def retryWaits (tr : List RetryEvent) : List Nat :=
  tr.filterMap fun e => match e with | .wait w => some w | _ => none

/-- The trace produced by `k` consecutive rate-limited failures starting at
attempt `i`: each failed attempt is an invocation followed by its awaited
exponential-backoff delay. -/
def backoffRun (d : Nat) : Nat → Nat → List RetryEvent
  | _, 0 => []
  | i, (k + 1) => .invoke i :: .wait (d * 2 ^ i) :: backoffRun d (i + 1) k

/-- The rendered-text wrapper used throughout the WordPress REST shapes
(`{ rendered: string }`). -/
structure Rendered where
  rendered : String
deriving DecidableEq, Repr

/-- An asset reference attached to a post after generation/upload
(`WordPressPost.generatedImage`). -/
structure GeneratedImage where
  url : String
  alt : String
  mediaId : Nat
  brief : Option String := none
deriving DecidableEq, Repr

/-- The per-entity status values of `WordPressPost.status`. -/
inductive PostStatus where
  | idle | pending | generating_brief | generating_image | analyzing
  | analyzing_placement | uploading | inserting | setting_featured
  | updating_meta | analysis_success | success | error
deriving DecidableEq, Repr

/-- The entity record, translated from `WordPressPost` in `types.ts`
(the fields the embedded core reads or writes). -/
structure WordPressPost where
  id : Nat
  title : Rendered
  link : String := ""
  excerpt : Rendered := ⟨""⟩
  content : Rendered
  featured_media : Nat := 0
  imageCount : Nat := 0
  existingImageUrl : Option String := none
  existingImageAltText : Option String := none
  generatedImage : Option GeneratedImage := none
  status : Option PostStatus := none
  statusMessage : Option String := none
deriving DecidableEq, Repr

/-- One row of the batch result (`{ postId, brief, altText }`). -/
structure ImageBriefResult where
  postId : Nat
  brief : String
  altText : String
deriving DecidableEq, Repr

/-- Observable events of one `generateImageBriefsAndAltsBatch` run: an
`onProgress(processed, total)` callback, the per-batch AI operation issued
on a chunk of posts, and an awaited inter-batch delay in milliseconds. -/
inductive BEvent where
  | progress (processed total : Nat)
  | aiCall (batch : List WordPressPost)
  | sleep (ms : Nat)
deriving DecidableEq, Repr

/-- `BATCH_SIZE` from the service layer: posts per API call. -/
def BATCH_SIZE : Nat := 20

/-- `DELAY_BETWEEN_BATCHES` from the service layer: milliseconds slept
between consecutive batches. -/
def DELAY_BETWEEN_BATCHES : Nat := 1000

/-- The chunk loop of `generateImageBriefsAndAltsBatch`, translated from
the source (`for (let i = 0; i < posts.length; i += BATCH_SIZE)`).  The
composite per-batch remote operation — `retryableAIOperation` around
`generateJsonText` followed by `extractJson` and `JSON.parse` — is the
oracle `apiCall`, mapping the chunk to its parsed results or the thrown
error.  A batch failure rethrows, aborting the remaining chunks; a batch
success appends its results, reports progress, and sleeps
`DELAY_BETWEEN_BATCHES` exactly when further posts remain. -/
def batchGo (apiCall : List WordPressPost → Except JsError (List ImageBriefResult))
    (posts : List WordPressPost) :
    Nat → Nat → List BEvent × Except JsError (List ImageBriefResult)
  | 0, _ => ([], .ok [])
  | fuel + 1, i =>
    if i < posts.length then
      let batch := (posts.drop i).take BATCH_SIZE
      match apiCall batch with
      | .error e => ([.aiCall batch], .error e)
      | .ok rs =>
        let rest := batchGo apiCall posts fuel (i + BATCH_SIZE)
        (.aiCall batch :: .progress (min (i + BATCH_SIZE) posts.length) posts.length ::
          ((if i + BATCH_SIZE < posts.length then [.sleep DELAY_BETWEEN_BATCHES] else []) ++ rest.1),
          match rest.2 with
          | .ok more => .ok (rs ++ more)
          | .error e => .error e)
    else ([], .ok [])

/-- Shallow embedding of `generateImageBriefsAndAltsBatch(posts, ...)`:
reports `onProgress(0, total)` and runs the chunk loop from index 0.  The
loop counter `i` is paired with structural fuel `posts.length`; since each
iteration advances `i` by `BATCH_SIZE ≥ 1`, the fuel never runs out before
the loop condition `i < posts.length` fails. -/
def generateImageBriefsAndAltsBatch
    (apiCall : List WordPressPost → Except JsError (List ImageBriefResult))
    (posts : List WordPressPost) :
    List BEvent × Except JsError (List ImageBriefResult) :=
  let r := batchGo apiCall posts posts.length 0
  (BEvent.progress 0 posts.length :: r.1, r.2)

/-- The consecutive `BATCH_SIZE`-chunks of `posts` from index `i` on:
the chunks the loop of `generateImageBriefsAndAltsBatch` slices. -/
def chunksFrom (posts : List WordPressPost) (i : Nat) : List (List WordPressPost) :=
  if _h : i < posts.length then
    (posts.drop i).take BATCH_SIZE :: chunksFrom posts (i + BATCH_SIZE)
  else []
termination_by posts.length - i
decreasing_by simp only [BATCH_SIZE]; omega

/-- Projection of a batch trace to its AI calls and sleeps (dropping
progress reports), used to state where the inter-batch delay occurs. -/
def callSleepProj : BEvent → Option BEvent
  | .progress _ _ => none
  | e => some e

/-- Projection of a batch trace to its `onProgress` reports. -/
def progressProj : BEvent → Option (Nat × Nat)
  | .progress p t => some (p, t)
  | _ => none

/-- A block-level node of the parsed post body (`DOMParser` output):
a `<p>` element carrying its text content, or any other markup.  An
`insertAdjacentHTML('afterend', html)` call is modelled as inserting one
`other` node carrying `html` right after the target node, and prepending
to `doc.body.innerHTML` as consing one `other` node. -/
inductive DomNode where
  | para (text : String)
  | other (html : String)
deriving DecidableEq, Repr

/-- Whether a body node is a `<p>` element (what
`doc.body.querySelectorAll('p')` collects). -/
def DomNode.isPara : DomNode → Bool
  | .para _ => true
  | .other _ => false

/-- The text contents of the paragraphs of a body, in document order
(the array `paragraphs` of the source, via `textContent`). -/
def paraTexts (body : List DomNode) : List String :=
  body.filterMap fun n => match n with | .para t => some t | .other _ => none

/-- Inserts `"\n" ++ ph ++ "\n"` immediately after the `k`-th paragraph of
the body (counting paragraphs only, 0-indexed), leaving everything else in
place: the model of `paragraphs[k].insertAdjacentHTML('afterend', ...)`.
If fewer than `k + 1` paragraphs exist the body is unchanged (the source
always guards the index). -/
def insertAfterPara : List DomNode → Nat → String → List DomNode
  | [], _, _ => []
  | n :: rest, k, ph =>
    match n with
    | .para t =>
      if k = 0 then .para t :: .other ("\n" ++ ph ++ "\n") :: rest
      else .para t :: insertAfterPara rest (k - 1) ph
    | .other h => .other h :: insertAfterPara rest k ph

/-- Shallow embedding of `insertPlaceholderHeuristically(postContent,
placeholder)`: with more than 2 paragraphs the target index is 1, with more
than 1 it is 0, otherwise the sentinel -1; an existing target receives the
placeholder right after it, else the placeholder goes after the last
paragraph if any exist, else it is prepended to the body. -/
def insertPlaceholderHeuristically (body : List DomNode) (placeholder : String) :
    List DomNode :=
  let paragraphs := paraTexts body
  let targetIndex : Int :=
    if paragraphs.length > 2 then 1
    else if paragraphs.length > 1 then 0
    else -1
  if targetIndex ≠ -1 ∧ targetIndex.toNat < paragraphs.length then
    insertAfterPara body targetIndex.toNat placeholder
  else if paragraphs.length > 0 then
    insertAfterPara body (paragraphs.length - 1) placeholder
  else
    .other (placeholder ++ "\n") :: body

/-- The first maximal run of decimal digits in a character list: the model
of JavaScript `text.match(/\d+/)?.[0]`. -/
def firstDigitRun : List Char → Option (List Char)
  | [] => none
  | c :: rest =>
    if c.isDigit then some (c :: rest.takeWhile Char.isDigit)
    else firstDigitRun rest

/-- Decimal value of a digit run (`parseInt` on a digits-only string). -/
def digitsToNat (ds : List Char) : Nat :=
  ds.foldl (fun acc c => acc * 10 + (c.toNat - 48)) 0

/-- The paragraph number `getContentWithImagePlaceholder` extracts from the
AI's reply: `parseInt(responseText.trim().match(/\d+/)?.[0] || '1', 10)`
— the first digit run of the trimmed reply, defaulting to 1 when the reply
contains no digits (on a digits-only match `parseInt` never yields NaN). -/
def chosenParagraphNumberOf (responseText : String) : Nat :=
  match firstDigitRun (jsTrim responseText).toList with
  | some ds => digitsToNat ds
  | none => 1

/-- The source's `paragraphsToAnalyze`: the trimmed texts of the first 5
paragraphs that are longer than 80 characters (the paragraph numbering the
source attaches is not needed to count them). -/
def significantParas (body : List DomNode) : List String :=
  (((paraTexts body).take 5).map jsTrim).filter (fun t => t.length > 80)

/-- Shallow embedding of `getContentWithImagePlaceholder(analysisConfig,
postContent, postTitle)`.  The body is the parsed `postContent`; `aiReply`
is the outcome of `retryableAIOperation(() => generateText(...))` — the
text-generation capability's final answer or the error it threw.  With
fewer than 3 paragraphs, or fewer than 2 significant paragraphs (trimmed
text longer than 80 among the first 5), or on an AI error, the heuristic
fallback runs; otherwise the reply's paragraph number is validated against
the paragraph count (falling back to index 1 when out of range) and the
placeholder is inserted after the selected paragraph. -/
def getContentWithImagePlaceholder (aiReply : Except JsError String)
    (body : List DomNode) : List DomNode :=
  let placeholder := "<!-- INSERT_IMAGE_HERE -->"
  let paragraphs := paraTexts body
  if paragraphs.length < 3 then
    insertPlaceholderHeuristically body placeholder
  else
    let paragraphsToAnalyze := significantParas body
    if paragraphsToAnalyze.length < 2 then
      insertPlaceholderHeuristically body placeholder
    else
      match aiReply with
      | .error _ => insertPlaceholderHeuristically body placeholder
      | .ok responseText =>
        let chosenParagraphNumber := chosenParagraphNumberOf responseText
        let targetParagraphIndex :=
          if chosenParagraphNumber < 1 ∨ chosenParagraphNumber > paragraphs.length then 1
          else chosenParagraphNumber - 1
        if targetParagraphIndex < paragraphs.length then
          insertAfterPara body targetParagraphIndex placeholder
        else
          insertPlaceholderHeuristically body placeholder

/-- `MAX_CONCURRENT_JOBS` from `ResultsStep.tsx`. -/
def MAX_CONCURRENT_JOBS : Int := 3

/-- A job's action tag (`JobAction` in `ResultsStep.tsx`). -/
inductive JobAction where
  | generate | insert | insert_at | set_featured | upload_insert
deriving DecidableEq, Repr

/-- A job's optional payload (`Job.payload`). -/
structure JobPayload where
  imageUrl : String
  altText : String
  imageDataUrl : Option String := none
  prebuiltContent : Option String := none
deriving DecidableEq, Repr

/-- A work order (`Job` in `ResultsStep.tsx`): an entity, an action, and an
optional payload. -/
structure Job where
  post : WordPressPost
  action : JobAction
  payload : Option JobPayload := none
deriving DecidableEq, Repr

/-- The scheduler's mutable state in `ResultsStep.tsx`: the pending queue
(`jobQueueRef`), the active-job counter (`activeCountRef`, a JavaScript
number, hence `Int`), and the re-entrancy guard (`isProcessingRef`).
`running` is a ghost field counting `processJob` invocations started but
not yet completed; it is incremented exactly when the drain loop starts a
job and decremented exactly when a completion handler runs, so it equals
the number of in-flight jobs in every execution. -/
structure SchedState where
  jobQueue : List Job
  activeCount : Int
  running : Nat
  isProcessing : Bool
deriving DecidableEq, Repr

/-- The `while` loop of `tryNext`: while `activeCount < MAX_CONCURRENT_JOBS`
and the queue is non-empty, shift the head job, increment `activeCount`,
and start its execution (recorded in `running`). -/
def drainLoop : List Job → Int → Nat → List Job × Int × Nat
  | [], active, running => ([], active, running)
  | j :: rest, active, running =>
    if active < MAX_CONCURRENT_JOBS then drainLoop rest (active + 1) (running + 1)
    else (j :: rest, active, running)

/-- `tryNext` from `drainQueue`: run the admission loop, then drop the
re-entrancy guard when the counter is zero and the queue is empty. -/
def tryNext (s : SchedState) : SchedState :=
  let r := drainLoop s.jobQueue s.activeCount s.running
  let s' : SchedState := ⟨r.1, r.2.1, r.2.2, s.isProcessing⟩
  if s'.activeCount = 0 ∧ s'.jobQueue = [] then { s' with isProcessing := false }
  else s'

/-- `drainQueue`: a re-entrant call is a no-op; otherwise the guard is set
and `tryNext` runs. -/
def drainQueue (s : SchedState) : SchedState :=
  if s.isProcessing then s else tryNext { s with isProcessing := true }

/-- `addJobsToQueue(jobs)`: an empty batch returns immediately; otherwise
the jobs are appended to the pending queue and `drainQueue` runs. -/
def addJobsToQueue (jobs : List Job) (s : SchedState) : SchedState :=
  if jobs = [] then s
  else drainQueue { s with jobQueue := s.jobQueue ++ jobs }

/-- The completion handler attached to each started job
(`processJob(job).finally(...)`): decrement `activeCount` (and the in-flight
count) and re-invoke `tryNext`. -/
def completeOne (s : SchedState) : SchedState :=
  tryNext { s with activeCount := s.activeCount - 1, running := s.running - 1 }

/-- `handleClearCompleted`: empty the pending queue, reset `activeCountRef`
to 0 and drop the guard.  Jobs already running are not cancelled, so the
in-flight count is unchanged — their completion handlers will still fire
later. -/
def handleClearCompleted (s : SchedState) : SchedState :=
  { s with jobQueue := [], activeCount := 0, isProcessing := false }

/-- An externally triggered scheduler event: an `addJobsToQueue` call, the
completion of one in-flight job, or a `handleClearCompleted` call. -/
inductive SchedEvent where
  | enqueue (jobs : List Job)
  | complete
  | clear
deriving DecidableEq, Repr

/-- One scheduler step.  A completion event can only physically occur while
a job is in flight, so it is a no-op at `running = 0` (no such event
exists in any real execution). -/
def schedStep (s : SchedState) : SchedEvent → SchedState
  | .enqueue jobs => addJobsToQueue jobs s
  | .complete => if s.running = 0 then s else completeOne s
  | .clear => handleClearCompleted s

/-- The scheduler's initial state: empty queue, zero counter, guard down. -/
def initSched : SchedState := ⟨[], 0, 0, false⟩

/-- The scheduler state after a sequence of events, from the initial
state. -/
def runSched (evs : List SchedEvent) : SchedState :=
  evs.foldl schedStep initSched

/-- All states the scheduler passes through under `evs`: the initial state
and the state after each event (the cooperative model's observation
instants — every event handler runs to completion synchronously). -/
def runStates (evs : List SchedEvent) : List SchedState :=
  evs.scanl schedStep initSched

/-- Replaces the first occurrence of `pat` in `s` (as character lists),
leaving `s` unchanged when `pat` does not occur. -/
def replaceFirstChars (rep pat : List Char) : List Char → List Char
  | [] => []
  | c :: rest =>
    if pat.isPrefixOf (c :: rest) then rep ++ (c :: rest).drop pat.length
    else c :: replaceFirstChars rep pat rest

/-- JavaScript `s.replace(pat, rep)` with a string pattern: only the first
occurrence is replaced (an empty pattern matches at the start). -/
def replaceFirst (s pat rep : String) : String :=
  if pat.toList.isEmpty then ⟨rep.toList ++ s.toList⟩
  else ⟨replaceFirstChars rep.toList pat.toList s.toList⟩

/-- JavaScript `s.replace(/pat/g, rep)` for a single-character pattern:
every occurrence is replaced. -/
def replaceAllChar (s : String) (pat : Char) (rep : String) : String :=
  ⟨s.toList.foldr (fun c acc => if c = pat then rep.toList ++ acc else c :: acc) []⟩

/-- A WordPress media-upload response (`{ id, source_url }`). -/
structure MediaResponse where
  id : Nat
  source_url : String
deriving DecidableEq, Repr

/-- A partial entity update passed to `updatePostState(postId, updates)`:
exactly the fields the update sets. -/
structure PostPatch where
  status : Option PostStatus := none
  statusMessage : Option String := none
  generatedImage : Option GeneratedImage := none
  imageCount : Option Nat := none
  content : Option Rendered := none
  featured_media : Option Nat := none
deriving DecidableEq, Repr

/-- Which remote operation `processJob` issues. -/
inductive RemoteCallKind where
  | generateBriefsBatch | generateImageCall | uploadImageCall
  | getPlacementCall | updatePostCall
deriving DecidableEq, Repr

/-- An observable effect of one `processJob` run: a published entity-state
update, or the issue point of a remote call. -/
inductive JobEvent where
  | update (postId : Nat) (patch : PostPatch)
  | call (kind : RemoteCallKind)
deriving DecidableEq, Repr

/-- The remote collaborators `processJob` reaches through the service
layer, as oracles from their arguments to their outcome:
`generateImageBriefsAndAltsBatch`, `generateImage`, `uploadImage`,
`getContentWithImagePlaceholder` and `updatePost`.  `now` is `Date.now()`.
(`uploadImage` takes the data URL, the filename and the alt text; the
placement oracle takes the rendered content and title.) -/
structure JobEnv where
  generateBriefs : List WordPressPost → Except JsError (List ImageBriefResult)
  generateImage : String → Except JsError String
  uploadImage : String → String → String → Except JsError MediaResponse
  getPlacement : String → String → Except JsError String
  updatePost : Nat → Except JsError Unit
  now : Nat

/-- The image-prompt settings `processJob` reads (`config.image`). -/
structure ImagePromptSettings where
  style : String
  negativePrompt : String
deriving DecidableEq, Repr

/-- A status transition published via `updatePostState`. -/
def statusEv (pid : Nat) (st : PostStatus) (msg : String) : JobEvent :=
  .update pid { status := some st, statusMessage := some msg }

/-- The terminal error transition published by `processJob`'s catch
handler. -/
def errorEv (pid : Nat) (msg : String) : JobEvent :=
  .update pid { status := some .error, statusMessage := some msg }

/-- The `<figure>` markup built for an inserted image. -/
def imageFigureHtml (imageUrl altText : String) : String :=
  let safeAlt := replaceAllChar altText '"' "&quot;"
  "<figure class=\"wp-block-image size-large\"><img src=\"" ++ imageUrl ++
    "\" alt=\"" ++ safeAlt ++ "\"/><figcaption>" ++ altText ++ "</figcaption></figure>"

/-- Shallow embedding of `processJob(job)` from `ResultsStep.tsx`,
returning the ordered trace of published status updates and issued remote
calls.  Each step's status transition is published before its remote call
is issued; any thrown error (precondition failure or remote failure) is
caught at the end and published as the entity's terminal `error` status
with the error's message; no later step runs after a failure. -/
def processJob (env : JobEnv) (cfg : ImagePromptSettings)
    (posts : List WordPressPost) (job : Job) : List JobEvent :=
  let pid := job.post.id
  match posts.find? (fun p => p.id == pid) with
  | none => [errorEv pid ("Post " ++ toString pid ++ " not found in current state.")]
  | some currentPost =>
    match job.action with
    | .generate =>
      let evs := [statusEv pid .generating_brief "Analyzing content...",
                  .call .generateBriefsBatch]
      match env.generateBriefs [currentPost] with
      | .error er => evs ++ [errorEv pid er.message]
      | .ok [] => evs ++ [errorEv pid "Failed to generate image brief."]
      | .ok (briefData :: _) =>
        let fullPrompt := briefData.brief ++ ", " ++ cfg.style ++
          (if cfg.negativePrompt ≠ "" then ", avoiding " ++ cfg.negativePrompt else "")
        let evs := evs ++ [statusEv pid .generating_image "Creating image...",
                           .call .generateImageCall]
        match env.generateImage fullPrompt with
        | .error er => evs ++ [errorEv pid er.message]
        | .ok imageDataUrl =>
          let evs := evs ++ [statusEv pid .uploading "Uploading to WordPress...",
                             .call .uploadImageCall]
          match env.uploadImage imageDataUrl ("ai-img-" ++ toString pid ++ ".png")
              briefData.altText with
          | .error er => evs ++ [errorEv pid er.message]
          | .ok uploadedImage =>
            evs ++ [.update pid
              { status := some .success, statusMessage := some "Image generated!",
                generatedImage := some
                  ⟨uploadedImage.source_url, briefData.altText, uploadedImage.id,
                   some briefData.brief⟩ }]
    | .insert =>
      match job.payload with
      | none => [errorEv pid "No image URL for insertion."]
      | some payload =>
        if payload.imageUrl = "" then [errorEv pid "No image URL for insertion."]
        else
          let evs := [statusEv pid .analyzing_placement "AI finding best spot...",
                      .call .getPlacementCall]
          match env.getPlacement currentPost.content.rendered currentPost.title.rendered with
          | .error er => evs ++ [errorEv pid er.message]
          | .ok contentWithPlaceholder =>
            let imageHtml := imageFigureHtml payload.imageUrl payload.altText
            let newContent := replaceFirst contentWithPlaceholder
              "<!-- INSERT_IMAGE_HERE -->" imageHtml
            let evs := evs ++ [statusEv pid .inserting "Updating post...",
                               .call .updatePostCall]
            match env.updatePost pid with
            | .error er => evs ++ [errorEv pid er.message]
            | .ok _ =>
              evs ++ [.update pid
                { status := some .success,
                  statusMessage := some "Image inserted (auto)!",
                  imageCount := some (currentPost.imageCount + 1),
                  content := some ⟨newContent⟩ }]
    | .insert_at =>
      match job.payload with
      | none => [errorEv pid "No content provided for manual insertion."]
      | some payload =>
        match payload.prebuiltContent with
        | none => [errorEv pid "No content provided for manual insertion."]
        | some prebuiltContent =>
          if prebuiltContent = "" then [errorEv pid "No content provided for manual insertion."]
          else
            let evs := [statusEv pid .inserting "Updating post...", .call .updatePostCall]
            match env.updatePost pid with
            | .error er => evs ++ [errorEv pid er.message]
            | .ok _ =>
              evs ++ [.update pid
                { status := some .success,
                  statusMessage := some "Image inserted (manual)!",
                  imageCount := some (currentPost.imageCount + 1),
                  content := some ⟨prebuiltContent⟩ }]
    | .set_featured =>
      match currentPost.generatedImage with
      | none => [errorEv pid "No generated image to set as featured."]
      | some gi =>
        if gi.mediaId = 0 then [errorEv pid "No generated image to set as featured."]
        else
          let evs := [statusEv pid .setting_featured "Setting featured image...",
                      .call .updatePostCall]
          match env.updatePost pid with
          | .error er => evs ++ [errorEv pid er.message]
          | .ok _ =>
            evs ++ [.update pid
              { status := some .success,
                statusMessage := some "Featured image set!",
                featured_media := some gi.mediaId }]
    | .upload_insert =>
      match job.payload with
      | none => [errorEv pid "Image data and alt text required."]
      | some payload =>
        match payload.imageDataUrl with
        | none => [errorEv pid "Image data and alt text required."]
        | some imageDataUrl =>
          if imageDataUrl = "" ∨ payload.altText = "" then
            [errorEv pid "Image data and alt text required."]
          else
            let evs := [statusEv pid .uploading "Uploading image...",
                        .call .uploadImageCall]
            match env.uploadImage imageDataUrl
                ("uploaded-img-" ++ toString pid ++ "-" ++ toString env.now ++ ".png")
                payload.altText with
            | .error er => evs ++ [errorEv pid er.message]
            | .ok uploadedImage =>
              let evs := evs ++ [statusEv pid .analyzing_placement "Finding best spot...",
                                 .call .getPlacementCall]
              match env.getPlacement currentPost.content.rendered
                  currentPost.title.rendered with
              | .error er => evs ++ [errorEv pid er.message]
              | .ok contentWithPlaceholder =>
                let imageHtml := imageFigureHtml uploadedImage.source_url payload.altText
                let newContent := replaceFirst contentWithPlaceholder
                  "<!-- INSERT_IMAGE_HERE -->" imageHtml
                let evs := evs ++ [statusEv pid .inserting "Updating post...",
                                   .call .updatePostCall]
                match env.updatePost pid with
                | .error er => evs ++ [errorEv pid er.message]
                | .ok _ =>
                  evs ++ [.update pid
                    { status := some .success,
                      statusMessage := some "Image uploaded & inserted!",
                      imageCount := some (currentPost.imageCount + 1),
                      content := some ⟨newContent⟩,
                      generatedImage := some
                        ⟨uploadedImage.source_url, payload.altText, uploadedImage.id, none⟩ }]

/-- The attempt indices recorded by a pure backoff run. -/
theorem backoffRun_invokes (d : Nat) : ∀ (k i : Nat),
    retryInvokes (backoffRun d i k) = List.range' i k := by
  intro k
  induction k with
  | zero => intro i; rfl
  | succ k ih =>
    intro i
    simp only [backoffRun, retryInvokes, List.filterMap_cons, List.range'_succ]
    simpa [retryInvokes] using ih (i + 1)

/-- The waits recorded by a pure backoff run: `d * 2 ^ j` for each failed
attempt `j`. -/
theorem backoffRun_waits (d : Nat) : ∀ (k i : Nat),
    retryWaits (backoffRun d i k) = (List.range' i k).map (fun j => d * 2 ^ j) := by
  intro k
  induction k with
  | zero => intro i; rfl
  | succ k ih =>
    intro i
    simp only [backoffRun, retryWaits, List.filterMap_cons, List.range'_succ, List.map_cons]
    simpa [retryWaits] using ih (i + 1)

/-- A backoff run of `k + 1` failures ends with the invocation of attempt
`i + k` followed by its wait. -/
theorem backoffRun_concat (d : Nat) : ∀ (k i : Nat),
    backoffRun d i (k + 1) =
      backoffRun d i k ++ [.invoke (i + k), .wait (d * 2 ^ (i + k))] := by
  intro k
  induction k with
  | zero => intro i; simp [backoffRun]
  | succ k ih =>
    intro i
    calc backoffRun d i (k + 1 + 1)
        = .invoke i :: .wait (d * 2 ^ i) :: backoffRun d (i + 1) (k + 1) := rfl
      _ = .invoke i :: .wait (d * 2 ^ i) ::
            (backoffRun d (i + 1) k ++
              [.invoke (i + 1 + k), .wait (d * 2 ^ (i + 1 + k))]) := by rw [ih (i + 1)]
      _ = backoffRun d i (k + 1) ++
            [.invoke (i + (k + 1)), .wait (d * 2 ^ (i + (k + 1)))] := by
          have hidx : i + 1 + k = i + (k + 1) := by omega
          rw [hidx]; rfl

/-- Closed form of the geometric wait total: the waits
`d * 2 ^ 0, ..., d * 2 ^ (k - 1)` sum to `d * (2 ^ k - 1)`. -/
theorem geom_waits_sum (d : Nat) : ∀ (k : Nat),
    (((List.range k).map (fun j => d * 2 ^ j)).sum) = d * (2 ^ k - 1) := by
  intro k
  induction k with
  | zero => simp
  | succ k ih =>
    rw [List.range_succ, List.map_append, List.sum_append, ih]
    have h1 : 1 ≤ 2 ^ k := Nat.one_le_two_pow
    simp only [List.map_cons, List.map_nil, List.sum_cons, List.sum_nil, Nat.add_zero]
    rw [← Nat.mul_add]
    congr 1
    rw [pow_succ]
    omega

/-- One unfolding step of the retry loop while attempts remain. -/
theorem retryGo_step {α} (apiCall : Nat → Except JsError α) (retries d r i : Nat)
    (le : Option JsError) :
    retryableAIOperationGo apiCall retries d (r + 1) i le =
      (match apiCall i with
       | .ok v => ([.invoke i], .ok v)
       | .error er =>
         if isRateLimitError er then
           (.invoke i :: .wait (d * 2 ^ i) ::
             (retryableAIOperationGo apiCall retries d r (i + 1) (some er)).1,
            (retryableAIOperationGo apiCall retries d r (i + 1) (some er)).2)
         else ([.invoke i], .error er)) := rfl

/-- Success path of the retry loop: `k` rate-limited failures starting at
attempt `i` and then a success produce the backoff trace followed by the
successful invocation, and return the operation's result. -/
theorem retryGo_ok {α} (apiCall : Nat → Except JsError α) (retries d : Nat) (v : α) :
    ∀ (k i remaining : Nat) (le : Option JsError), k < remaining →
      (∀ j, j < k → ∃ e, apiCall (i + j) = .error e ∧ isRateLimitError e = true) →
      apiCall (i + k) = .ok v →
      retryableAIOperationGo apiCall retries d remaining i le =
        (backoffRun d i k ++ [.invoke (i + k)], .ok v) := by
  intro k
  induction k with
  | zero =>
    intro i remaining le hrem _ hok
    cases remaining with
    | zero => omega
    | succ r =>
      simp only [Nat.add_zero] at hok
      rw [retryGo_step, hok]
      simp [backoffRun]
  | succ k ih =>
    intro i remaining le hrem hfail hok
    cases remaining with
    | zero => omega
    | succ r =>
      obtain ⟨e, he, hrl⟩ := hfail 0 (Nat.succ_pos k)
      simp only [Nat.add_zero] at he
      have hfail' : ∀ j, j < k → ∃ e, apiCall (i + 1 + j) = .error e ∧
          isRateLimitError e = true := by
        intro j hj
        have hx := hfail (j + 1) (by omega)
        simpa [Nat.add_comm, Nat.add_left_comm, Nat.add_assoc] using hx
      have hok' : apiCall (i + 1 + k) = .ok v := by
        have hh : i + 1 + k = i + (k + 1) := by omega
        rw [hh]; exact hok
      have hrec := ih (i + 1) r (some e) (by omega) hfail' hok'
      have hidx : i + 1 + k = i + (k + 1) := by omega
      rw [retryGo_step, he]
      simp only [hrl, if_true, hrec, hidx]
      rfl

/-- Exhaustion path of the retry loop: when every remaining attempt fails
with a rate-limit-classified error, the trace is the full backoff run —
each failed attempt, the last included, followed by its wait — and the
wrapping exhaustion error carries the last attempt's error. -/
theorem retryGo_exhaust {α} (apiCall : Nat → Except JsError α) (retries d : Nat)
    (e : Nat → JsError) :
    ∀ (m i : Nat) (le : Option JsError), 0 < m →
      (∀ j, j < m → apiCall (i + j) = .error (e (i + j)) ∧
        isRateLimitError (e (i + j)) = true) →
      retryableAIOperationGo apiCall retries d m i le =
        (backoffRun d i m,
         .error (retryExhaustedError retries (some (e (i + m - 1))))) := by
  intro m
  induction m with
  | zero => intro i le h0 _; omega
  | succ m ih =>
    intro i le _ hfail
    obtain ⟨he, hrl⟩ := hfail 0 (Nat.succ_pos m)
    simp only [Nat.add_zero] at he hrl
    cases m with
    | zero =>
      rw [retryGo_step, he]
      simp [hrl, retryableAIOperationGo, backoffRun]
    | succ m' =>
      have hfail' : ∀ j, j < m' + 1 → apiCall (i + 1 + j) = .error (e (i + 1 + j)) ∧
          isRateLimitError (e (i + 1 + j)) = true := by
        intro j hj
        have hx := hfail (j + 1) (by omega)
        simpa [Nat.add_comm, Nat.add_left_comm, Nat.add_assoc] using hx
      have hrec := ih (i + 1) (some (e i)) (Nat.succ_pos m') hfail'
      have hidx : i + (m' + 1 + 1) - 1 = i + 1 + (m' + 1) - 1 := by omega
      rw [hidx, retryGo_step, he]
      simp only [hrl, if_true, hrec]
      rfl

/-- C4: if the wrapped operation fails with a rate-limit-classified error
exactly `k` times (`k < retries`) and then succeeds, `retryableAIOperation`
invokes it exactly `k + 1` times — attempts `0, ..., k`, strictly in
sequence — returns the successful result, awaits `initialDelay * 2 ^ i`
after the `i`-th failed attempt, and awaits
`initialDelay * (2 ^ 0 + ... + 2 ^ (k - 1)) = initialDelay * (2 ^ k - 1)`
in total. -/
theorem retry_success_after_k_failures {α} (apiCall : Nat → Except JsError α)
    (retries initialDelay k : Nat) (v : α) (hk : k < retries)
    (hfail : ∀ j, j < k → ∃ e, apiCall j = .error e ∧ isRateLimitError e = true)
    (hok : apiCall k = .ok v) :
    retryableAIOperation apiCall retries initialDelay =
        (backoffRun initialDelay 0 k ++ [.invoke k], .ok v)
    ∧ retryInvokes (retryableAIOperation apiCall retries initialDelay).1 =
        List.range (k + 1)
    ∧ retryWaits (retryableAIOperation apiCall retries initialDelay).1 =
        (List.range k).map (fun i => initialDelay * 2 ^ i)
    ∧ (retryWaits (retryableAIOperation apiCall retries initialDelay).1).sum =
        initialDelay * (2 ^ k - 1) := by
  have hf : ∀ j, j < k → ∃ e, apiCall (0 + j) = .error e ∧ isRateLimitError e = true := by
    intro j hj; simpa using hfail j hj
  have ho : apiCall (0 + k) = .ok v := by simpa using hok
  have hmain : retryableAIOperation apiCall retries initialDelay =
      (backoffRun initialDelay 0 k ++ [.invoke k], .ok v) := by
    have h := retryGo_ok apiCall retries initialDelay v k 0 retries none hk hf ho
    simpa [retryableAIOperation] using h
  have hinv : retryInvokes (backoffRun initialDelay 0 k ++ [RetryEvent.invoke k]) =
      List.range (k + 1) := by
    rw [retryInvokes, List.filterMap_append]
    have h1 := backoffRun_invokes initialDelay k 0
    rw [retryInvokes] at h1
    rw [h1]
    have hrs : List.range (k + 1) = List.range k ++ [k] := by
      rw [← Nat.succ_eq_add_one, List.range_succ]
    rw [hrs, List.range_eq_range']
    rfl
  have hw : retryWaits (backoffRun initialDelay 0 k ++ [RetryEvent.invoke k]) =
      (List.range k).map (fun i => initialDelay * 2 ^ i) := by
    rw [retryWaits, List.filterMap_append]
    have h1 := backoffRun_waits initialDelay k 0
    rw [retryWaits] at h1
    rw [h1, List.range_eq_range']
    simp
  refine ⟨hmain, ?_, ?_, ?_⟩
  · rw [hmain]; exact hinv
  · rw [hmain]; exact hw
  · rw [hmain]; rw [hw]; exact geom_waits_sum initialDelay k

/-- A concrete operation for the C4 witness: rate-limited twice, then
succeeds. -/
def demoRetryCall : Nat → Except JsError Nat :=
  fun i => if i < 2 then .error ⟨"HTTP 429", none⟩ else .ok 7

/-- Witness for C4 at `demoRetryCall`, `retries = 3`, `initialDelay = 100`,
`k = 2`. -/
theorem retry_success_after_k_failures_witness :
    retryableAIOperation demoRetryCall 3 100 =
        (backoffRun 100 0 2 ++ [.invoke 2], .ok 7)
    ∧ retryInvokes (retryableAIOperation demoRetryCall 3 100).1 = List.range (2 + 1)
    ∧ retryWaits (retryableAIOperation demoRetryCall 3 100).1 =
        (List.range 2).map (fun i => 100 * 2 ^ i)
    ∧ (retryWaits (retryableAIOperation demoRetryCall 3 100).1).sum =
        100 * (2 ^ 2 - 1) :=
  retry_success_after_k_failures demoRetryCall 3 100 2 7 (by omega)
    (fun j hj => ⟨⟨"HTTP 429", none⟩, by simp [demoRetryCall, hj], by decide⟩)
    rfl

/-- C10: when every one of the `retries` attempts fails with a
rate-limit-classified error, every failed attempt — the final one included
— is followed by its backoff wait (`initialDelay * 2 ^ i` after attempt
`i`), so the trace ends in the wait `initialDelay * 2 ^ (retries - 1)`, the
total awaited delay is `initialDelay * (2 ^ retries - 1)`, and the function
then throws the wrapping error whose message names the attempt count and
the last cause's message. -/
theorem retry_exhaustion_final_wait {α} (apiCall : Nat → Except JsError α)
    (retries initialDelay : Nat) (e : Nat → JsError) (hret : 0 < retries)
    (hfail : ∀ j, j < retries →
      apiCall j = .error (e j) ∧ isRateLimitError (e j) = true) :
    retryableAIOperation apiCall retries initialDelay =
        (backoffRun initialDelay 0 retries,
         .error ⟨"AI request failed after " ++ toString retries ++
           " attempts. Last error: " ++ (e (retries - 1)).message, none⟩)
    ∧ retryWaits (retryableAIOperation apiCall retries initialDelay).1 =
        (List.range retries).map (fun i => initialDelay * 2 ^ i)
    ∧ (retryWaits (retryableAIOperation apiCall retries initialDelay).1).sum =
        initialDelay * (2 ^ retries - 1)
    ∧ (retryableAIOperation apiCall retries initialDelay).1.getLast? =
        some (.wait (initialDelay * 2 ^ (retries - 1))) := by
  have hf : ∀ j, j < retries → apiCall (0 + j) = .error (e (0 + j)) ∧
      isRateLimitError (e (0 + j)) = true := by
    intro j hj; simpa using hfail j hj
  have hmain : retryableAIOperation apiCall retries initialDelay =
      (backoffRun initialDelay 0 retries,
       .error (retryExhaustedError retries (some (e (retries - 1))))) := by
    have h := retryGo_exhaust apiCall retries initialDelay e retries 0 none hret hf
    simpa [retryableAIOperation] using h
  have hmsg : retryExhaustedError retries (some (e (retries - 1))) =
      ⟨"AI request failed after " ++ toString retries ++
        " attempts. Last error: " ++ (e (retries - 1)).message, none⟩ := rfl
  have hw : retryWaits (backoffRun initialDelay 0 retries) =
      (List.range retries).map (fun i => initialDelay * 2 ^ i) := by
    rw [backoffRun_waits initialDelay retries 0, List.range_eq_range']
  refine ⟨by rw [hmain, hmsg], ?_, ?_, ?_⟩
  · rw [hmain]; exact hw
  · rw [hmain, hw]; exact geom_waits_sum initialDelay retries
  · rw [hmain]
    obtain ⟨m, rfl⟩ : ∃ m, retries = m + 1 := ⟨retries - 1, by omega⟩
    rw [backoffRun_concat initialDelay m 0]
    have hgrp : backoffRun initialDelay 0 m ++
        [RetryEvent.invoke (0 + m), RetryEvent.wait (initialDelay * 2 ^ (0 + m))] =
        (backoffRun initialDelay 0 m ++ [RetryEvent.invoke (0 + m)]) ++
          [RetryEvent.wait (initialDelay * 2 ^ (0 + m))] := by
      rw [List.append_assoc]; rfl
    rw [hgrp, List.getLast?_concat]
    simp

/-- A concrete always-rate-limited operation for the C10 witness. -/
def demoExhaustCall : Nat → Except JsError Nat :=
  fun _ => .error ⟨"RESOURCE_EXHAUSTED: quota", none⟩

/-- Witness for C10 at `demoExhaustCall`, `retries = 2`,
`initialDelay = 1000`. -/
theorem retry_exhaustion_final_wait_witness :
    retryableAIOperation demoExhaustCall 2 1000 =
        (backoffRun 1000 0 2,
         .error ⟨"AI request failed after " ++ toString 2 ++
           " attempts. Last error: " ++
           (JsError.mk "RESOURCE_EXHAUSTED: quota" none).message, none⟩)
    ∧ retryWaits (retryableAIOperation demoExhaustCall 2 1000).1 =
        (List.range 2).map (fun i => 1000 * 2 ^ i)
    ∧ (retryWaits (retryableAIOperation demoExhaustCall 2 1000).1).sum =
        1000 * (2 ^ 2 - 1)
    ∧ (retryableAIOperation demoExhaustCall 2 1000).1.getLast? =
        some (.wait (1000 * 2 ^ (2 - 1))) :=
  retry_exhaustion_final_wait demoExhaustCall 2 1000
    (fun _ => ⟨"RESOURCE_EXHAUSTED: quota", none⟩) (by omega)
    (fun j _ => ⟨rfl,
      (by decide : isRateLimitError ⟨"RESOURCE_EXHAUSTED: quota", none⟩ = true)⟩)

/-- C3 fails on the code: the timeout error thrown by `fetchWithTimeout`
(the default 90-second timeout) is not classified as retryable — the
operation is invoked exactly once and the error is rethrown with no wait,
although the claim says a request timeout is retried after a backoff
wait. -/
theorem timeout_rethrown_counterexample :
    fetchWithTimeout (FetchOutcome.aborted : FetchOutcome Unit) 90000 =
        .error ⟨"Request timed out after 90 seconds.", none⟩
    ∧ isRateLimitError ⟨"Request timed out after 90 seconds.", none⟩ = false
    ∧ retryableAIOperation
        (fun _ => (.error ⟨"Request timed out after 90 seconds.", none⟩ : Except JsError Unit))
        3 2000 =
      ([.invoke 0], .error ⟨"Request timed out after 90 seconds.", none⟩) :=
  ⟨rfl, by decide, rfl⟩

/-- C3 (amended): the retry layer classifies a failure as retryable exactly
when its signature indicates provider throttling or rate limiting — a
`FetchError` with HTTP status 429, or a message containing `"429"` or
`"RESOURCE_EXHAUSTED"`.  Every other failure, request timeouts included
(the timeout errors produced by `fetchWithTimeout` at each timeout the
source uses carry no rate-limit marker), is rethrown immediately: exactly
one invocation and no wait.  A retryable failure is re-attempted after the
backoff wait. -/
theorem retry_classification {α} (apiCall : Nat → Except JsError α)
    (retries initialDelay : Nat) (e : JsError) (v : α) :
    (apiCall 0 = .error e → isRateLimitError e = false → 0 < retries →
      retryableAIOperation apiCall retries initialDelay = ([.invoke 0], .error e))
    ∧ (apiCall 0 = .error e → isRateLimitError e = true → apiCall 1 = .ok v →
        2 ≤ retries →
      retryableAIOperation apiCall retries initialDelay =
        ([.invoke 0, .wait initialDelay, .invoke 1], .ok v))
    ∧ (∀ t, t ∈ ([20000, 30000, 60000, 90000, 120000] : List Nat) →
        ∃ msg, fetchWithTimeout (FetchOutcome.aborted : FetchOutcome α) t =
            .error ⟨msg, none⟩ ∧ isRateLimitError ⟨msg, none⟩ = false) := by
  refine ⟨?_, ?_, ?_⟩
  · intro he hrl hret
    obtain ⟨r, rfl⟩ : ∃ r, retries = r + 1 := ⟨retries - 1, by omega⟩
    rw [retryableAIOperation, retryGo_step, he]
    simp [hrl]
  · intro he hrl hok hret
    have h := retryGo_ok apiCall retries initialDelay v 1 0 retries none (by omega)
      (fun j hj => ⟨e, by simpa [Nat.lt_one_iff.mp hj] using he, hrl⟩)
      (by simpa using hok)
    rw [retryableAIOperation, h]
    simp [backoffRun]
  · intro t ht
    simp only [List.mem_cons, List.not_mem_nil, or_false] at ht
    rcases ht with rfl | rfl | rfl | rfl | rfl
    · exact ⟨"Request timed out after 20 seconds.", rfl, by decide⟩
    · exact ⟨"Request timed out after 30 seconds.", rfl, by decide⟩
    · exact ⟨"Request timed out after 60 seconds.", rfl, by decide⟩
    · exact ⟨"Request timed out after 90 seconds.", rfl, by decide⟩
    · exact ⟨"Request timed out after 120 seconds.", rfl, by decide⟩

/-- Witness for the amended C3: a non-rate-limit error is rethrown on the
first attempt with no retry and no wait. -/
theorem retry_classification_witness :
    retryableAIOperation (fun _ => (.error ⟨"boom", none⟩ : Except JsError Nat)) 3 2000 =
      ([.invoke 0], .error ⟨"boom", none⟩) :=
  (retry_classification (fun _ => .error ⟨"boom", none⟩) 3 2000 ⟨"boom", none⟩ 0).1
    rfl (by decide) (by omega)

/-- The trace of the chunk loop when every batch succeeds (the pure shape
of `batchGo`'s first component under an all-successful oracle). -/
def batchTrace (posts : List WordPressPost) (i : Nat) : List BEvent :=
  if _h : i < posts.length then
    .aiCall ((posts.drop i).take BATCH_SIZE) ::
      .progress (min (i + BATCH_SIZE) posts.length) posts.length ::
        ((if i + BATCH_SIZE < posts.length then [.sleep DELAY_BETWEEN_BATCHES] else []) ++
          batchTrace posts (i + BATCH_SIZE))
  else []
termination_by posts.length - i
decreasing_by simp only [BATCH_SIZE]; omega

/-- Unfolding `chunksFrom` while posts remain. -/
theorem chunksFrom_pos (posts : List WordPressPost) (i : Nat) (h : i < posts.length) :
    chunksFrom posts i =
      (posts.drop i).take BATCH_SIZE :: chunksFrom posts (i + BATCH_SIZE) := by
  rw [chunksFrom.eq_def]
  rw [dif_pos h]

/-- `chunksFrom` past the end of the posts. -/
theorem chunksFrom_nil (posts : List WordPressPost) (i : Nat) (h : ¬ i < posts.length) :
    chunksFrom posts i = [] := by
  rw [chunksFrom.eq_def]
  rw [dif_neg h]

/-- Unfolding `batchTrace` while posts remain. -/
theorem batchTrace_pos (posts : List WordPressPost) (i : Nat) (h : i < posts.length) :
    batchTrace posts i =
      .aiCall ((posts.drop i).take BATCH_SIZE) ::
        .progress (min (i + BATCH_SIZE) posts.length) posts.length ::
          ((if i + BATCH_SIZE < posts.length then [.sleep DELAY_BETWEEN_BATCHES] else []) ++
            batchTrace posts (i + BATCH_SIZE)) := by
  rw [batchTrace.eq_def]
  rw [dif_pos h]

/-- `batchTrace` past the end of the posts. -/
theorem batchTrace_nil (posts : List WordPressPost) (i : Nat) (h : ¬ i < posts.length) :
    batchTrace posts i = [] := by
  rw [batchTrace.eq_def]
  rw [dif_neg h]

/-- Under an all-successful per-batch oracle, the trace of the chunk loop
is `batchTrace`. -/
theorem batchGo_trace_eq
    (apiCall : List WordPressPost → Except JsError (List ImageBriefResult))
    (posts : List WordPressPost)
    (henv : ∀ b, ∃ rs, apiCall b = .ok rs) :
    ∀ (fuel i : Nat), posts.length ≤ i + fuel →
      (batchGo apiCall posts fuel i).1 = batchTrace posts i := by
  intro fuel
  induction fuel with
  | zero =>
    intro i hle
    have h : ¬ i < posts.length := by omega
    rw [batchTrace_nil posts i h]
    rfl
  | succ fuel ih =>
    intro i hle
    by_cases h : i < posts.length
    · obtain ⟨rs, hrs⟩ := henv ((posts.drop i).take BATCH_SIZE)
      rw [batchTrace_pos posts i h]
      simp only [batchGo, if_pos h, hrs]
      rw [ih (i + BATCH_SIZE) (by simp only [BATCH_SIZE]; omega)]
    · rw [batchTrace_nil posts i h]
      simp only [batchGo, if_neg h]

/-- Projected to AI calls and sleeps, the chunk-loop trace is exactly the
chunks' calls with the inter-batch sleep interspersed strictly between
consecutive calls. -/
theorem batchTrace_callSleep (posts : List WordPressPost) :
    ∀ (fuel i : Nat), posts.length ≤ i + fuel →
      (batchTrace posts i).filterMap callSleepProj =
        List.intersperse (BEvent.sleep DELAY_BETWEEN_BATCHES)
          ((chunksFrom posts i).map BEvent.aiCall) := by
  intro fuel
  induction fuel with
  | zero =>
    intro i hle
    have h : ¬ i < posts.length := by omega
    rw [batchTrace_nil posts i h, chunksFrom_nil posts i h]
    rfl
  | succ fuel ih =>
    intro i hle
    by_cases h : i < posts.length
    · rw [batchTrace_pos posts i h, chunksFrom_pos posts i h]
      by_cases h2 : i + BATCH_SIZE < posts.length
      · rw [if_pos h2]
        simp only [List.filterMap_cons, callSleepProj, List.filterMap_append]
        rw [ih (i + BATCH_SIZE) (by simp only [BATCH_SIZE]; omega)]
        rw [chunksFrom_pos posts (i + BATCH_SIZE) h2]
        simp [List.intersperse_cons_cons]
      · rw [chunksFrom_nil posts (i + BATCH_SIZE) h2]
        rw [if_neg h2]
        rw [batchTrace_nil posts (i + BATCH_SIZE) h2]
        rfl
    · rw [batchTrace_nil posts i h, chunksFrom_nil posts i h]
      rfl

/-- The number of chunks is the ceiling of the remaining posts divided by
the batch size. -/
theorem chunksFrom_length (posts : List WordPressPost) :
    ∀ (fuel i : Nat), posts.length ≤ i + fuel →
      (chunksFrom posts i).length =
        (posts.length - i + BATCH_SIZE - 1) / BATCH_SIZE := by
  intro fuel
  induction fuel with
  | zero =>
    intro i hle
    have h : ¬ i < posts.length := by omega
    rw [chunksFrom_nil posts i h]
    simp only [List.length_nil, BATCH_SIZE]
    omega
  | succ fuel ih =>
    intro i hle
    by_cases h : i < posts.length
    · rw [chunksFrom_pos posts i h, List.length_cons,
        ih (i + BATCH_SIZE) (by simp only [BATCH_SIZE]; omega)]
      simp only [BATCH_SIZE]
      omega
    · rw [chunksFrom_nil posts i h]
      simp only [List.length_nil, BATCH_SIZE]
      omega

/-- The chunks, concatenated in order, are exactly the remaining posts:
every chunk is a consecutive slice, in input order. -/
theorem chunksFrom_flatten (posts : List WordPressPost) :
    ∀ (fuel i : Nat), posts.length ≤ i + fuel →
      (chunksFrom posts i).flatten = posts.drop i := by
  intro fuel
  induction fuel with
  | zero =>
    intro i hle
    have h : ¬ i < posts.length := by omega
    rw [chunksFrom_nil posts i h]
    have hnil : posts.drop i = [] := List.drop_eq_nil_of_le (by omega)
    rw [hnil]
    rfl
  | succ fuel ih =>
    intro i hle
    by_cases h : i < posts.length
    · rw [chunksFrom_pos posts i h, List.flatten_cons,
        ih (i + BATCH_SIZE) (by simp only [BATCH_SIZE]; omega)]
      have hdd : posts.drop (i + BATCH_SIZE) = (posts.drop i).drop BATCH_SIZE := by
        rw [List.drop_drop]
      rw [hdd, List.take_append_drop]
    · rw [chunksFrom_nil posts i h]
      have hnil : posts.drop i = [] := List.drop_eq_nil_of_le (by omega)
      rw [hnil]
      rfl

/-- Every chunk except possibly the last has exactly `BATCH_SIZE` posts. -/
theorem chunksFrom_dropLast_length (posts : List WordPressPost) :
    ∀ (fuel i : Nat), posts.length ≤ i + fuel →
      ∀ c ∈ (chunksFrom posts i).dropLast, c.length = BATCH_SIZE := by
  intro fuel
  induction fuel with
  | zero =>
    intro i hle
    have h : ¬ i < posts.length := by omega
    rw [chunksFrom_nil posts i h]
    intro c hc
    simp at hc
  | succ fuel ih =>
    intro i hle
    by_cases h : i < posts.length
    · rw [chunksFrom_pos posts i h]
      by_cases h2 : i + BATCH_SIZE < posts.length
      · have hne : chunksFrom posts (i + BATCH_SIZE) ≠ [] := by
          rw [chunksFrom_pos posts (i + BATCH_SIZE) h2]
          exact List.cons_ne_nil _ _
        rw [List.dropLast_cons_of_ne_nil hne]
        intro c hc
        rcases List.mem_cons.mp hc with rfl | hc2
        · rw [List.length_take, List.length_drop]
          simp only [BATCH_SIZE] at h2 ⊢
          omega
        · exact ih (i + BATCH_SIZE) (by simp only [BATCH_SIZE]; omega) c hc2
      · rw [chunksFrom_nil posts (i + BATCH_SIZE) h2]
        intro c hc
        simp at hc
    · rw [chunksFrom_nil posts i h]
      intro c hc
      simp at hc

/-- Every chunk is non-empty and has at most `BATCH_SIZE` posts. -/
theorem chunksFrom_bounds (posts : List WordPressPost) :
    ∀ (fuel i : Nat), posts.length ≤ i + fuel →
      ∀ c ∈ chunksFrom posts i, c.length ≤ BATCH_SIZE ∧ c ≠ [] := by
  intro fuel
  induction fuel with
  | zero =>
    intro i hle
    have h : ¬ i < posts.length := by omega
    rw [chunksFrom_nil posts i h]
    intro c hc
    simp at hc
  | succ fuel ih =>
    intro i hle
    by_cases h : i < posts.length
    · rw [chunksFrom_pos posts i h]
      intro c hc
      rcases List.mem_cons.mp hc with rfl | hc2
      · constructor
        · rw [List.length_take]
          exact min_le_left _ _
        · have hlen : ((posts.drop i).take BATCH_SIZE).length ≠ 0 := by
            rw [List.length_take, List.length_drop]
            simp only [BATCH_SIZE]
            omega
          intro hnil
          exact hlen (by rw [hnil]; rfl)
      · exact ih (i + BATCH_SIZE) (by simp only [BATCH_SIZE]; omega) c hc2
    · rw [chunksFrom_nil posts i h]
      intro c hc
      simp at hc

/-- Consing onto a list preserves a known last element. -/
theorem getLast?_cons_of_some {α} (a x : α) :
    ∀ (l : List α), l.getLast? = some x → (a :: l).getLast? = some x := by
  intro l h
  cases l with
  | nil => simp at h
  | cons b t => rw [List.getLast?_cons_cons]; exact h

/-- While posts remain, the progress reports of the chunk-loop trace end
with `(total, total)`. -/
theorem batchTrace_progress_last (posts : List WordPressPost) :
    ∀ (fuel i : Nat), posts.length ≤ i + fuel → i < posts.length →
      ((batchTrace posts i).filterMap progressProj).getLast? =
        some (posts.length, posts.length) := by
  intro fuel
  induction fuel with
  | zero => intro i hle h; omega
  | succ fuel ih =>
    intro i hle h
    rw [batchTrace_pos posts i h]
    simp only [List.filterMap_cons, callSleepProj, progressProj, List.filterMap_append]
    by_cases h2 : i + BATCH_SIZE < posts.length
    · rw [if_pos h2]
      have hrec := ih (i + BATCH_SIZE) (by simp only [BATCH_SIZE]; omega) h2
      refine getLast?_cons_of_some _ _ _ ?_
      simpa [progressProj] using hrec
    · rw [if_neg h2]
      rw [batchTrace_nil posts (i + BATCH_SIZE) h2]
      have hmin : min (i + BATCH_SIZE) posts.length = posts.length := by omega
      simp [hmin, progressProj]

/-- C5: for any input posts, under a per-batch operation that succeeds on
every chunk, `generateImageBriefsAndAltsBatch` issues the per-batch AI
operation exactly `ceil(n / 20)` times — once per chunk, the chunks being
the consecutive slices of the input, each of size 20 except possibly a
smaller, non-empty final slice; the inter-batch 1000 ms delay is awaited
exactly between consecutive batches (never before the first or after the
last, by the interspersal shape of the call/sleep projection); and the
final `onProgress` report is `(n, n)`. -/
theorem batch_orchestrator_spec
    (apiCall : List WordPressPost → Except JsError (List ImageBriefResult))
    (posts : List WordPressPost)
    (henv : ∀ b, ∃ rs, apiCall b = .ok rs) :
    (generateImageBriefsAndAltsBatch apiCall posts).1.filterMap callSleepProj =
        List.intersperse (BEvent.sleep DELAY_BETWEEN_BATCHES)
          ((chunksFrom posts 0).map BEvent.aiCall)
    ∧ (chunksFrom posts 0).length = (posts.length + BATCH_SIZE - 1) / BATCH_SIZE
    ∧ (chunksFrom posts 0).flatten = posts
    ∧ (∀ c ∈ (chunksFrom posts 0).dropLast, c.length = BATCH_SIZE)
    ∧ (∀ c ∈ chunksFrom posts 0, c.length ≤ BATCH_SIZE ∧ c ≠ [])
    ∧ ((generateImageBriefsAndAltsBatch apiCall posts).1.filterMap progressProj).getLast? =
        some (posts.length, posts.length) := by
  have htr : (generateImageBriefsAndAltsBatch apiCall posts).1 =
      BEvent.progress 0 posts.length :: batchTrace posts 0 := by
    simp only [generateImageBriefsAndAltsBatch]
    rw [batchGo_trace_eq apiCall posts henv posts.length 0 (by omega)]
  refine ⟨?_, ?_, ?_, ?_, ?_, ?_⟩
  · rw [htr]
    simp only [List.filterMap_cons, callSleepProj]
    exact batchTrace_callSleep posts posts.length 0 (by omega)
  · have h := chunksFrom_length posts posts.length 0 (by omega)
    simpa using h
  · have h := chunksFrom_flatten posts posts.length 0 (by omega)
    simpa using h
  · exact chunksFrom_dropLast_length posts posts.length 0 (by omega)
  · exact chunksFrom_bounds posts posts.length 0 (by omega)
  · rw [htr]
    simp only [List.filterMap_cons, progressProj]
    by_cases h : 0 < posts.length
    · exact getLast?_cons_of_some _ _ _ (batchTrace_progress_last posts posts.length 0 (by omega) h)
    · have h0 : ¬ 0 < posts.length := h
      rw [batchTrace_nil posts 0 h0]
      have : posts.length = 0 := by omega
      simp [this]

/-- A small concrete post for witnesses. -/
def mkDemoPost (n : Nat) : WordPressPost :=
  { id := n, title := ⟨"Title"⟩, content := ⟨"<p>Body</p>"⟩ }

/-- Concrete posts for the C5 witness. -/
def demoPosts : List WordPressPost := [mkDemoPost 1, mkDemoPost 2, mkDemoPost 3]

/-- An always-successful per-batch operation for the C5 witness. -/
def demoBatchCall : List WordPressPost → Except JsError (List ImageBriefResult) :=
  fun _ => .ok []

/-- Witness for C5 at three posts and an all-successful per-batch
operation. -/
theorem batch_orchestrator_spec_witness :
    (generateImageBriefsAndAltsBatch demoBatchCall demoPosts).1.filterMap callSleepProj =
        List.intersperse (BEvent.sleep DELAY_BETWEEN_BATCHES)
          ((chunksFrom demoPosts 0).map BEvent.aiCall)
    ∧ (chunksFrom demoPosts 0).length = (demoPosts.length + BATCH_SIZE - 1) / BATCH_SIZE
    ∧ (chunksFrom demoPosts 0).flatten = demoPosts
    ∧ (∀ c ∈ (chunksFrom demoPosts 0).dropLast, c.length = BATCH_SIZE)
    ∧ (∀ c ∈ chunksFrom demoPosts 0, c.length ≤ BATCH_SIZE ∧ c ≠ [])
    ∧ ((generateImageBriefsAndAltsBatch demoBatchCall demoPosts).1.filterMap
        progressProj).getLast? = some (demoPosts.length, demoPosts.length) :=
  batch_orchestrator_spec demoBatchCall demoPosts (fun _ => ⟨[], rfl⟩)

/-- Inserting after the `k`-th paragraph splits the body at that paragraph:
the placeholder node lands immediately after it, everything else is
unchanged. -/
theorem insertAfterPara_split (ph : String) :
    ∀ (body : List DomNode) (k : Nat), k < (paraTexts body).length →
      ∃ pre t suf, body = pre ++ .para t :: suf ∧ (paraTexts pre).length = k ∧
        insertAfterPara body k ph =
          pre ++ .para t :: .other ("\n" ++ ph ++ "\n") :: suf := by
  intro body
  induction body with
  | nil => intro k hk; simp [paraTexts] at hk
  | cons n rest ih =>
    intro k hk
    cases n with
    | para t =>
      cases k with
      | zero =>
        exact ⟨[], t, rest, rfl, rfl, rfl⟩
      | succ k =>
        have hk' : k < (paraTexts rest).length := by
          simpa [paraTexts] using hk
        obtain ⟨pre, t', suf, hb, hp, hi⟩ := ih k hk'
        refine ⟨.para t :: pre, t', suf, by rw [hb]; rfl, ?_, ?_⟩
        · simpa [paraTexts] using hp
        · show DomNode.para t :: insertAfterPara rest (k + 1 - 1) ph = _
          simp only [Nat.add_sub_cancel]
          rw [hi]
          rfl
    | other h =>
      have hk' : k < (paraTexts rest).length := by
        simpa [paraTexts] using hk
      obtain ⟨pre, t', suf, hb, hp, hi⟩ := ih k hk'
      refine ⟨.other h :: pre, t', suf, by rw [hb]; rfl, ?_, ?_⟩
      · simpa [paraTexts] using hp
      · show DomNode.other h :: insertAfterPara rest k ph = _
        rw [hi]
        rfl

/-- With more than two paragraphs the heuristic inserts after paragraph
index 1. -/
theorem heuristic_gt2 (body : List DomNode) (ph : String)
    (h : (paraTexts body).length > 2) :
    insertPlaceholderHeuristically body ph = insertAfterPara body 1 ph := by
  unfold insertPlaceholderHeuristically
  simp only []
  rw [if_pos h]
  rw [if_pos (⟨by decide, by simp only [Int.toNat_one]; omega⟩ :
    (1 : Int) ≠ -1 ∧ (1 : Int).toNat < (paraTexts body).length)]
  rfl

/-- With exactly two paragraphs the heuristic inserts after paragraph
index 0. -/
theorem heuristic_two (body : List DomNode) (ph : String)
    (h : (paraTexts body).length = 2) :
    insertPlaceholderHeuristically body ph = insertAfterPara body 0 ph := by
  unfold insertPlaceholderHeuristically
  simp only [h]
  norm_num

/-- With exactly one paragraph the heuristic falls through to the
last-paragraph branch, inserting after paragraph index 0 — after its only
paragraph, not before the content. -/
theorem heuristic_one (body : List DomNode) (ph : String)
    (h : (paraTexts body).length = 1) :
    insertPlaceholderHeuristically body ph = insertAfterPara body 0 ph := by
  unfold insertPlaceholderHeuristically
  simp only [h]
  norm_num

/-- With no paragraphs the heuristic prepends the placeholder. -/
theorem heuristic_zero (body : List DomNode) (ph : String)
    (h : (paraTexts body).length = 0) :
    insertPlaceholderHeuristically body ph = .other (ph ++ "\n") :: body := by
  unfold insertPlaceholderHeuristically
  simp only [h]
  norm_num

/-- C6: the placement heuristic prepends the placeholder when the body has
no paragraph blocks; with exactly 1 block it inserts immediately after the
block at paragraph index 0; with exactly 2 blocks, after index 0; with 5
blocks, after index 1; and it is deterministic — identical inputs give
identical output (it is a pure function). -/
theorem placement_heuristic_cases (body : List DomNode) (ph : String) :
    ((paraTexts body).length = 0 →
      insertPlaceholderHeuristically body ph = .other (ph ++ "\n") :: body)
    ∧ ((paraTexts body).length = 1 → ∃ pre t suf,
        body = pre ++ .para t :: suf ∧ (paraTexts pre).length = 0 ∧
        insertPlaceholderHeuristically body ph =
          pre ++ .para t :: .other ("\n" ++ ph ++ "\n") :: suf)
    ∧ ((paraTexts body).length = 2 → ∃ pre t suf,
        body = pre ++ .para t :: suf ∧ (paraTexts pre).length = 0 ∧
        insertPlaceholderHeuristically body ph =
          pre ++ .para t :: .other ("\n" ++ ph ++ "\n") :: suf)
    ∧ ((paraTexts body).length = 5 → ∃ pre t suf,
        body = pre ++ .para t :: suf ∧ (paraTexts pre).length = 1 ∧
        insertPlaceholderHeuristically body ph =
          pre ++ .para t :: .other ("\n" ++ ph ++ "\n") :: suf)
    ∧ (∀ body2 ph2, body2 = body → ph2 = ph →
        insertPlaceholderHeuristically body ph =
          insertPlaceholderHeuristically body2 ph2) := by
  refine ⟨?_, ?_, ?_, ?_, ?_⟩
  · intro h; exact heuristic_zero body ph h
  · intro h
    obtain ⟨pre, t, suf, hb, hp, hi⟩ := insertAfterPara_split ph body 0 (by omega)
    exact ⟨pre, t, suf, hb, hp, (heuristic_one body ph h).trans hi⟩
  · intro h
    obtain ⟨pre, t, suf, hb, hp, hi⟩ := insertAfterPara_split ph body 0 (by omega)
    exact ⟨pre, t, suf, hb, hp, (heuristic_two body ph h).trans hi⟩
  · intro h
    obtain ⟨pre, t, suf, hb, hp, hi⟩ := insertAfterPara_split ph body 1 (by omega)
    exact ⟨pre, t, suf, hb, hp, (heuristic_gt2 body ph (by omega)).trans hi⟩
  · intro body2 ph2 h1 h2
    rw [h1, h2]

/-- A 5-paragraph body for the C6 witness. -/
def demoBody5 : List DomNode :=
  [.para "p1", .para "p2", .para "p3", .para "p4", .para "p5"]

/-- Witness for C6 at the 5-paragraph body: the heuristic inserts after
paragraph index 1. -/
theorem placement_heuristic_cases_witness :
    ∃ pre t suf, demoBody5 = pre ++ .para t :: suf ∧ (paraTexts pre).length = 1 ∧
      insertPlaceholderHeuristically demoBody5 "<!-- INSERT_IMAGE_HERE -->" =
        pre ++ .para t :: .other ("\n" ++ "<!-- INSERT_IMAGE_HERE -->" ++ "\n") :: suf :=
  (placement_heuristic_cases demoBody5 "<!-- INSERT_IMAGE_HERE -->").2.2.2.1 (by decide)

/-- C7 fails on the code for a body with exactly one paragraph block: the
heuristic does not select the "prepend" sentinel — it inserts the
placeholder after the single paragraph, so the placeholder is not placed
before all existing content. -/
theorem single_block_prepend_counterexample :
    insertPlaceholderHeuristically [DomNode.para "Only paragraph"]
        "<!-- INSERT_IMAGE_HERE -->" =
      [DomNode.para "Only paragraph",
       DomNode.other ("\n" ++ "<!-- INSERT_IMAGE_HERE -->" ++ "\n")]
    ∧ insertPlaceholderHeuristically [DomNode.para "Only paragraph"]
        "<!-- INSERT_IMAGE_HERE -->" ≠
      DomNode.other ("<!-- INSERT_IMAGE_HERE -->" ++ "\n") ::
        [DomNode.para "Only paragraph"] := by
  constructor
  · decide
  · decide

/-- C7 (amended): with more than 2 paragraph blocks the heuristic selects
index 1 (after the second block); else with more than 1 block, index 0;
with exactly one block it inserts after that block (index 0) rather than
prepending; only with zero blocks does it prepend the placeholder before
all existing content. -/
theorem placement_rule_amended (body : List DomNode) (ph : String) :
    ((paraTexts body).length > 2 → ∃ pre t suf,
        body = pre ++ .para t :: suf ∧ (paraTexts pre).length = 1 ∧
        insertPlaceholderHeuristically body ph =
          pre ++ .para t :: .other ("\n" ++ ph ++ "\n") :: suf)
    ∧ ((paraTexts body).length = 2 → ∃ pre t suf,
        body = pre ++ .para t :: suf ∧ (paraTexts pre).length = 0 ∧
        insertPlaceholderHeuristically body ph =
          pre ++ .para t :: .other ("\n" ++ ph ++ "\n") :: suf)
    ∧ ((paraTexts body).length = 1 → ∃ pre t suf,
        body = pre ++ .para t :: suf ∧ (paraTexts pre).length = 0 ∧
        insertPlaceholderHeuristically body ph =
          pre ++ .para t :: .other ("\n" ++ ph ++ "\n") :: suf)
    ∧ ((paraTexts body).length = 0 →
        insertPlaceholderHeuristically body ph = .other (ph ++ "\n") :: body) := by
  refine ⟨?_, ?_, ?_, ?_⟩
  · intro h
    obtain ⟨pre, t, suf, hb, hp, hi⟩ := insertAfterPara_split ph body 1 (by omega)
    exact ⟨pre, t, suf, hb, hp, (heuristic_gt2 body ph h).trans hi⟩
  · intro h
    obtain ⟨pre, t, suf, hb, hp, hi⟩ := insertAfterPara_split ph body 0 (by omega)
    exact ⟨pre, t, suf, hb, hp, (heuristic_two body ph h).trans hi⟩
  · intro h
    obtain ⟨pre, t, suf, hb, hp, hi⟩ := insertAfterPara_split ph body 0 (by omega)
    exact ⟨pre, t, suf, hb, hp, (heuristic_one body ph h).trans hi⟩
  · intro h; exact heuristic_zero body ph h

/-- Witness for the amended C7 at a single-paragraph body. -/
theorem placement_rule_amended_witness :
    ∃ pre t suf, [DomNode.para "Only paragraph"] = pre ++ .para t :: suf ∧
      (paraTexts pre).length = 0 ∧
      insertPlaceholderHeuristically [DomNode.para "Only paragraph"]
          "<!-- INSERT_IMAGE_HERE -->" =
        pre ++ .para t :: .other ("\n" ++ "<!-- INSERT_IMAGE_HERE -->" ++ "\n") :: suf :=
  (placement_rule_amended [DomNode.para "Only paragraph"]
    "<!-- INSERT_IMAGE_HERE -->").2.2.1 (by decide)

/-- With fewer than 3 paragraphs the AI is skipped and the heuristic
runs. -/
theorem gci_few (ai : Except JsError String) (body : List DomNode)
    (h : (paraTexts body).length < 3) :
    getContentWithImagePlaceholder ai body =
      insertPlaceholderHeuristically body "<!-- INSERT_IMAGE_HERE -->" := by
  unfold getContentWithImagePlaceholder
  simp only []
  rw [if_pos h]

/-- With fewer than 2 significant paragraphs the AI is skipped and the
heuristic runs. -/
theorem gci_insig (ai : Except JsError String) (body : List DomNode)
    (h3 : ¬ (paraTexts body).length < 3)
    (hs : (significantParas body).length < 2) :
    getContentWithImagePlaceholder ai body =
      insertPlaceholderHeuristically body "<!-- INSERT_IMAGE_HERE -->" := by
  unfold getContentWithImagePlaceholder
  simp only []
  rw [if_neg h3, if_pos hs]

/-- When the AI call throws, the catch handler runs the heuristic. -/
theorem gci_error (e : JsError) (body : List DomNode)
    (h3 : ¬ (paraTexts body).length < 3)
    (hs : ¬ (significantParas body).length < 2) :
    getContentWithImagePlaceholder (.error e) body =
      insertPlaceholderHeuristically body "<!-- INSERT_IMAGE_HERE -->" := by
  unfold getContentWithImagePlaceholder
  simp only []
  rw [if_neg h3, if_neg hs]

/-- When the AI call answers, the placeholder goes after the validated
paragraph index — which is always in range, so the invalid-index branch is
dead. -/
theorem gci_ok (t : String) (body : List DomNode)
    (h3 : ¬ (paraTexts body).length < 3)
    (hs : ¬ (significantParas body).length < 2) :
    getContentWithImagePlaceholder (.ok t) body =
      insertAfterPara body
        (if chosenParagraphNumberOf t < 1 ∨
            chosenParagraphNumberOf t > (paraTexts body).length
         then 1 else chosenParagraphNumberOf t - 1) "<!-- INSERT_IMAGE_HERE -->" := by
  have htarget : (if chosenParagraphNumberOf t < 1 ∨
      chosenParagraphNumberOf t > (paraTexts body).length
      then 1 else chosenParagraphNumberOf t - 1) < (paraTexts body).length := by
    by_cases hc : chosenParagraphNumberOf t < 1 ∨
        chosenParagraphNumberOf t > (paraTexts body).length
    · rw [if_pos hc]; omega
    · rw [if_neg hc]; omega
  unfold getContentWithImagePlaceholder
  simp only []
  rw [if_neg h3, if_neg hs]
  rw [if_pos htarget]

/-- The heuristic always inserts a placeholder node: either the
after-paragraph node or the prepended node is in its output. -/
theorem heuristic_mem (body : List DomNode) (ph : String) :
    DomNode.other ("\n" ++ ph ++ "\n") ∈ insertPlaceholderHeuristically body ph ∨
    DomNode.other (ph ++ "\n") ∈ insertPlaceholderHeuristically body ph := by
  by_cases h0 : (paraTexts body).length = 0
  · right
    rw [heuristic_zero body ph h0]
    exact List.mem_cons_self _ _
  · left
    by_cases h2 : (paraTexts body).length > 2
    · obtain ⟨pre, t, suf, _, _, hi⟩ := insertAfterPara_split ph body 1 (by omega)
      rw [heuristic_gt2 body ph h2, hi]
      exact List.mem_append_right _
        (List.mem_cons_of_mem _ (List.mem_cons_self _ _))
    · obtain ⟨pre, t, suf, _, _, hi⟩ := insertAfterPara_split ph body 0 (by omega)
      have hred : insertPlaceholderHeuristically body ph = insertAfterPara body 0 ph := by
        by_cases h1 : (paraTexts body).length = 1
        · exact heuristic_one body ph h1
        · exact heuristic_two body ph (by omega)
      rw [hred, hi]
      exact List.mem_append_right _
        (List.mem_cons_of_mem _ (List.mem_cons_self _ _))

/-- C9 (amended): `getContentWithImagePlaceholder` never rejects and always
returns content with the placeholder inserted; the heuristic fallback runs
when the body has fewer than 3 paragraphs, or fewer than 2 significant
paragraphs, or the AI call throws; when the AI is consulted and its reply's
first digit run is an in-range paragraph number `p`, the placeholder goes
after paragraph index `p - 1`; when the digit run is out of range the index
falls back to 1 (the same position the heuristic would pick); and when the
reply contains no digits at all it is read as `'1'` and the placeholder
goes after paragraph index 0 — not to the heuristic's position. -/
theorem placement_never_fails_amended (ai : Except JsError String)
    (body : List DomNode) :
    (DomNode.other ("\n" ++ "<!-- INSERT_IMAGE_HERE -->" ++ "\n") ∈
        getContentWithImagePlaceholder ai body ∨
      DomNode.other ("<!-- INSERT_IMAGE_HERE -->" ++ "\n") ∈
        getContentWithImagePlaceholder ai body)
    ∧ ((paraTexts body).length < 3 →
        getContentWithImagePlaceholder ai body =
          insertPlaceholderHeuristically body "<!-- INSERT_IMAGE_HERE -->")
    ∧ (¬ (paraTexts body).length < 3 → (significantParas body).length < 2 →
        getContentWithImagePlaceholder ai body =
          insertPlaceholderHeuristically body "<!-- INSERT_IMAGE_HERE -->")
    ∧ (∀ e, ¬ (paraTexts body).length < 3 → ¬ (significantParas body).length < 2 →
        ai = .error e →
        getContentWithImagePlaceholder ai body =
          insertPlaceholderHeuristically body "<!-- INSERT_IMAGE_HERE -->")
    ∧ (∀ t ds, ¬ (paraTexts body).length < 3 →
        ¬ (significantParas body).length < 2 → ai = .ok t →
        firstDigitRun (jsTrim t).toList = some ds →
        1 ≤ digitsToNat ds → digitsToNat ds ≤ (paraTexts body).length →
        getContentWithImagePlaceholder ai body =
          insertAfterPara body (digitsToNat ds - 1) "<!-- INSERT_IMAGE_HERE -->")
    ∧ (∀ t ds, ¬ (paraTexts body).length < 3 →
        ¬ (significantParas body).length < 2 → ai = .ok t →
        firstDigitRun (jsTrim t).toList = some ds →
        (digitsToNat ds < 1 ∨ digitsToNat ds > (paraTexts body).length) →
        getContentWithImagePlaceholder ai body =
          insertAfterPara body 1 "<!-- INSERT_IMAGE_HERE -->")
    ∧ (∀ t, ¬ (paraTexts body).length < 3 →
        ¬ (significantParas body).length < 2 → ai = .ok t →
        firstDigitRun (jsTrim t).toList = none →
        getContentWithImagePlaceholder ai body =
          insertAfterPara body 0 "<!-- INSERT_IMAGE_HERE -->") := by
  refine ⟨?_, ?_, ?_, ?_, ?_, ?_, ?_⟩
  · by_cases h3 : (paraTexts body).length < 3
    · rw [gci_few ai body h3]
      exact heuristic_mem body _
    · by_cases hs : (significantParas body).length < 2
      · rw [gci_insig ai body h3 hs]
        exact heuristic_mem body _
      · cases ai with
        | error e =>
          rw [gci_error e body h3 hs]
          exact heuristic_mem body _
        | ok t =>
          rw [gci_ok t body h3 hs]
          left
          have hlt : (if chosenParagraphNumberOf t < 1 ∨
              chosenParagraphNumberOf t > (paraTexts body).length
              then 1 else chosenParagraphNumberOf t - 1) < (paraTexts body).length := by
            by_cases hc : chosenParagraphNumberOf t < 1 ∨
                chosenParagraphNumberOf t > (paraTexts body).length
            · rw [if_pos hc]; omega
            · rw [if_neg hc]; omega
          obtain ⟨pre, t', suf, _, _, hi⟩ :=
            insertAfterPara_split "<!-- INSERT_IMAGE_HERE -->" body _ hlt
          rw [hi]
          exact List.mem_append_right _
            (List.mem_cons_of_mem _ (List.mem_cons_self _ _))
  · intro h3; exact gci_few ai body h3
  · intro h3 hs; exact gci_insig ai body h3 hs
  · intro e h3 hs hai; rw [hai]; exact gci_error e body h3 hs
  · intro t ds h3 hs hai hds h1 h2
    rw [hai, gci_ok t body h3 hs]
    have hch : chosenParagraphNumberOf t = digitsToNat ds := by
      unfold chosenParagraphNumberOf
      rw [hds]
    rw [hch, if_neg (by omega)]
  · intro t ds h3 hs hai hds hrange
    rw [hai, gci_ok t body h3 hs]
    have hch : chosenParagraphNumberOf t = digitsToNat ds := by
      unfold chosenParagraphNumberOf
      rw [hds]
    rw [hch, if_pos hrange]
  · intro t h3 hs hai hds
    rw [hai, gci_ok t body h3 hs]
    have hch : chosenParagraphNumberOf t = 1 := by
      unfold chosenParagraphNumberOf
      rw [hds]
    rw [hch, if_neg (by omega)]

/-- A paragraph text long enough to pass the 80-character significance
threshold. -/
def longText : String :=
  "This paragraph is intentionally written to be rather long so that it clears the eighty character significance threshold used by the placement analyzer."

/-- A three-paragraph body, all significant, for the C9 theorems. -/
def demoBody3 : List DomNode := [.para longText, .para longText, .para longText]

set_option maxRecDepth 16384 in
/-- C9 fails on the code: with an AI-eligible body (3 significant
paragraphs) and a malformed AI reply containing no digits, the code does
not fall back to the heuristic — `parseInt(... || '1')` reads the reply as
paragraph 1 and inserts after paragraph index 0, while the heuristic
would insert after paragraph index 1. -/
theorem no_digit_reply_counterexample :
    getContentWithImagePlaceholder (.ok "Paragraph one looks best") demoBody3 =
      insertAfterPara demoBody3 0 "<!-- INSERT_IMAGE_HERE -->"
    ∧ insertPlaceholderHeuristically demoBody3 "<!-- INSERT_IMAGE_HERE -->" =
      insertAfterPara demoBody3 1 "<!-- INSERT_IMAGE_HERE -->"
    ∧ getContentWithImagePlaceholder (.ok "Paragraph one looks best") demoBody3 ≠
      insertPlaceholderHeuristically demoBody3 "<!-- INSERT_IMAGE_HERE -->" := by
  refine ⟨by decide, by decide, by decide⟩

set_option maxRecDepth 16384 in
/-- Witness for the amended C9: at the eligible three-paragraph body, an
AI error makes the function return the heuristic result. -/
theorem placement_never_fails_amended_witness :
    getContentWithImagePlaceholder (.error ⟨"AI down", none⟩) demoBody3 =
      insertPlaceholderHeuristically demoBody3 "<!-- INSERT_IMAGE_HERE -->" :=
  (placement_never_fails_amended (.error ⟨"AI down", none⟩) demoBody3).2.2.2.1
    ⟨"AI down", none⟩ (by decide) (by decide) rfl

/-- The scheduler's inductive invariant: the active-job counter equals the
number of in-flight `processJob` calls and never exceeds the ceiling. -/
def SchedInv (s : SchedState) : Prop :=
  s.activeCount = (s.running : Int) ∧ s.running ≤ 3

/-- The drain loop admits a job only while the counter is below
`MAX_CONCURRENT_JOBS`, so it preserves the invariant (and does so at every
iteration, since each recursive call re-establishes it). -/
theorem drainLoop_inv : ∀ (q : List Job) (a : Int) (r : Nat),
    a = (r : Int) → r ≤ 3 →
    (drainLoop q a r).2.1 = ((drainLoop q a r).2.2 : Int) ∧
      (drainLoop q a r).2.2 ≤ 3 := by
  intro q
  induction q with
  | nil => intro a r h1 h2; exact ⟨h1, h2⟩
  | cons j rest ih =>
    intro a r h1 h2
    simp only [drainLoop]
    by_cases h : a < MAX_CONCURRENT_JOBS
    · rw [if_pos h]
      simp only [MAX_CONCURRENT_JOBS] at h
      exact ih (a + 1) (r + 1) (by omega) (by omega)
    · rw [if_neg h]
      exact ⟨h1, h2⟩

/-- `tryNext` changes only the queue, the counter and the in-flight count
as the drain loop does (the guard flag aside). -/
theorem tryNext_counts (s : SchedState) :
    (tryNext s).activeCount = (drainLoop s.jobQueue s.activeCount s.running).2.1 ∧
    (tryNext s).running = (drainLoop s.jobQueue s.activeCount s.running).2.2 := by
  by_cases hc : (drainLoop s.jobQueue s.activeCount s.running).2.1 = 0 ∧
      (drainLoop s.jobQueue s.activeCount s.running).1 = []
  · simp [tryNext, hc]
  · simp only [tryNext]
    rw [if_neg hc]
    exact ⟨rfl, rfl⟩

/-- `tryNext` preserves the scheduler invariant. -/
theorem tryNext_inv (s : SchedState) (h : SchedInv s) : SchedInv (tryNext s) := by
  obtain ⟨h1, h2⟩ := h
  have hd := drainLoop_inv s.jobQueue s.activeCount s.running h1 h2
  obtain ⟨hc1, hc2⟩ := tryNext_counts s
  exact ⟨by rw [hc1, hc2]; exact hd.1, by rw [hc2]; exact hd.2⟩

/-- Every clear-free scheduler event preserves the invariant. -/
theorem schedStep_inv (s : SchedState) (ev : SchedEvent) (hev : ev ≠ .clear)
    (h : SchedInv s) : SchedInv (schedStep s ev) := by
  cases ev with
  | enqueue jobs =>
    show SchedInv (addJobsToQueue jobs s)
    unfold addJobsToQueue
    by_cases hj : jobs = []
    · rw [if_pos hj]; exact h
    · rw [if_neg hj]
      unfold drainQueue
      by_cases hp : ({ s with jobQueue := s.jobQueue ++ jobs } : SchedState).isProcessing
      · rw [if_pos hp]; exact h
      · rw [if_neg hp]
        exact tryNext_inv _ h
  | complete =>
    show SchedInv (if s.running = 0 then s else completeOne s)
    by_cases hr : s.running = 0
    · rw [if_pos hr]; exact h
    · rw [if_neg hr]
      refine tryNext_inv _ ?_
      obtain ⟨h1, h2⟩ := h
      exact ⟨by simp only []; omega, by simp only []; omega⟩
  | clear => exact absurd rfl hev

/-- The invariant holds at every state the scheduler passes through from
an invariant state, under clear-free events. -/
theorem scanl_inv (evs : List SchedEvent) (hclear : SchedEvent.clear ∉ evs) :
    ∀ (s0 : SchedState), SchedInv s0 →
      ∀ s ∈ List.scanl schedStep s0 evs, SchedInv s := by
  induction evs with
  | nil =>
    intro s0 h0 s hs
    simp only [List.scanl_nil, List.mem_singleton] at hs
    rw [hs]; exact h0
  | cons ev evs ih =>
    intro s0 h0 s hs
    have hev : ev ≠ .clear := by
      intro hcontra
      exact hclear (by rw [hcontra]; exact List.mem_cons_self _ _)
    have hclear' : SchedEvent.clear ∉ evs := fun hx => hclear (List.mem_cons_of_mem _ hx)
    rw [List.scanl_cons] at hs
    rcases List.mem_cons.mp hs with rfl | hs2
    · exact h0
    · exact ih hclear' (schedStep s0 ev) (schedStep_inv s0 ev hev h0) s hs2

/-- C1: for every sequence of `addJobsToQueue` calls and job completions
with no clear operation, the active-job counter `activeCountRef.current`
satisfies `0 ≤ activeCount ≤ MAX_CONCURRENT_JOBS` at every observed
instant (after every event, the initial state included), and it equals the
number of in-flight `processJob` calls. -/
theorem scheduler_active_count_bounded (evs : List SchedEvent)
    (hclear : SchedEvent.clear ∉ evs) :
    ∀ s ∈ runStates evs, 0 ≤ s.activeCount ∧ s.activeCount ≤ MAX_CONCURRENT_JOBS ∧
      s.activeCount = (s.running : Int) := by
  intro s hs
  have h := scanl_inv evs hclear initSched ⟨rfl, by decide⟩ s hs
  obtain ⟨h1, h2⟩ := h
  refine ⟨by omega, ?_, h1⟩
  simp only [MAX_CONCURRENT_JOBS]
  omega

/-- A concrete job for the scheduler witnesses. -/
def demoJob : Job := { post := mkDemoPost 1, action := .generate }

/-- Witness for C1: a concrete clear-free run (enqueue one job, then its
completion), observed at its final state. -/
theorem scheduler_active_count_bounded_witness :
    0 ≤ (runSched [.enqueue [demoJob], .complete]).activeCount ∧
      (runSched [.enqueue [demoJob], .complete]).activeCount ≤ MAX_CONCURRENT_JOBS ∧
      (runSched [.enqueue [demoJob], .complete]).activeCount =
        ((runSched [.enqueue [demoJob], .complete]).running : Int) :=
  scheduler_active_count_bounded [.enqueue [demoJob], .complete] (by decide)
    (runSched [.enqueue [demoJob], .complete]) (by decide)

/-- C2 fails on the code: `handleClearCompleted` resets `activeCountRef`
to 0 while jobs are still in flight, so the completion handlers of the
already-running jobs drive the counter negative — after enqueueing one job,
clearing, and letting that job complete, `activeCountRef.current = -1 < 0`.
Worse, after clearing with 3 jobs in flight and enqueueing 3 more, 6
`processJob` calls run concurrently although the ceiling is 3. -/
theorem clear_breaks_active_count_invariant :
    (runSched [.enqueue [demoJob], .clear, .complete]).activeCount = -1
    ∧ (runSched [.enqueue [demoJob], .clear, .complete]).activeCount < 0
    ∧ (runSched [.enqueue [demoJob, demoJob, demoJob], .clear,
        .enqueue [demoJob, demoJob, demoJob]]).running = 6 := by
  refine ⟨by decide, by decide, by decide⟩

/-- C8: an `insert` job whose payload is missing or has an empty
`imageUrl` fails its precondition check before any step runs: `processJob`
publishes exactly one event — the terminal `error` status with the message
"No image URL for insertion." for that entity — issuing no remote call and
no intermediate non-error status transition. -/
theorem insert_missing_image_url (env : JobEnv) (cfg : ImagePromptSettings)
    (posts : List WordPressPost) (job : Job) (currentPost : WordPressPost)
    (hfind : posts.find? (fun p => p.id == job.post.id) = some currentPost)
    (haction : job.action = .insert)
    (hpayload : job.payload = none ∨ ∃ pl, job.payload = some pl ∧ pl.imageUrl = "") :
    processJob env cfg posts job =
      [JobEvent.update job.post.id
        { status := some .error,
          statusMessage := some "No image URL for insertion." }] := by
  unfold processJob
  simp only [hfind, haction]
  rcases hpayload with hp | ⟨pl, hp, hurl⟩
  · simp [hp, errorEv]
  · simp [hp, hurl, errorEv]

/-- An environment whose oracles are never consulted, for the C8
witness. -/
def demoEnv : JobEnv :=
  { generateBriefs := fun _ => .error ⟨"unused", none⟩
    generateImage := fun _ => .error ⟨"unused", none⟩
    uploadImage := fun _ _ _ => .error ⟨"unused", none⟩
    getPlacement := fun _ _ => .error ⟨"unused", none⟩
    updatePost := fun _ => .error ⟨"unused", none⟩
    now := 0 }

/-- Prompt settings for the C8 witness. -/
def demoCfg : ImagePromptSettings := ⟨"photorealistic", ""⟩

/-- Witness for C8: a payload-less insert job on a present post yields
exactly the single error update. -/
theorem insert_missing_image_url_witness :
    processJob demoEnv demoCfg [mkDemoPost 1]
        { post := mkDemoPost 1, action := .insert, payload := none } =
      [JobEvent.update (mkDemoPost 1).id
        { status := some .error,
          statusMessage := some "No image URL for insertion." }] :=
  insert_missing_image_url demoEnv demoCfg [mkDemoPost 1]
    { post := mkDemoPost 1, action := .insert, payload := none } (mkDemoPost 1)
    (by decide) rfl (Or.inl rfl)
